import Mathlib

set_option autoImplicit false

/-!
Shallow embedding of the MDX rendering shim in
`src/assets/js/00634dd8.062cee42.js` (webpack module `3905`).

The module defines, in minified form:
- helper `o(e,n,t)`: property assignment `e[n] = t`;
- helper `a`/`i`: object spread, `i(target, src1, src2, ...)` copies the own
  enumerable entries of each source onto the target in order;
- helper `l(e, excluded)`: a fresh object holding every entry of `e` whose key
  is not excluded;
- `p(e)`: reads the ambient components context and merges a truthy `components`
  argument over it with `i(i({}, ctx), e)`;
- `d`: built-in shortcodes, `inlineCode` rendering as the host `code` tag and
  `wrapper` being a Fragment-wrapping function component;
- `u` (`MDXCreateElement`): strips the reserved props, resolves the renderer
  `m = merged[parentName.mdxType] || merged[mdxType] || d[mdxType] || originalType`
  and emits the host element;
- `f` (exported as `kt`): the element factory, forwarding variadic children.
-/

namespace MDX

/-- JavaScript runtime values as this module manipulates them: strings,
numbers, booleans, `null`, `undefined`, opaque function references (renderer
components identified by a numeric id), the `MDXCreateElement` component
itself, and plain objects as ordered key-value entry lists. Function values
are opaque: the `typeof e == "function"` branch of source `p` (a
components-decorator function) is not representable in this universe and no
claim exercises it. -/
inductive Val : Type where
  | undefined : Val
  | null : Val
  | bool : Bool → Val
  | num : Int → Val
  | str : String → Val
  | fn : Nat → Val
  | mdx : Val
  | obj : List (String × Val) → Val

mutual
/-- Structural boolean equality on values. -/
def beqVal : Val → Val → Bool
  | .undefined, .undefined => true
  | .null, .null => true
  | .bool a, .bool b => a == b
  | .num a, .num b => a == b
  | .str a, .str b => a == b
  | .fn a, .fn b => a == b
  | .mdx, .mdx => true
  | .obj a, .obj b => beqObjList a b
  | _, _ => false

/-- Structural boolean equality on entry lists. -/
def beqObjList : List (String × Val) → List (String × Val) → Bool
  | [], [] => true
  | (k1, v1) :: r1, (k2, v2) :: r2 => k1 == k2 && beqVal v1 v2 && beqObjList r1 r2
  | _ :: _, [] => false
  | [], _ :: _ => false
end

mutual
theorem beqVal_iff : ∀ a b, beqVal a b = true ↔ a = b
  | .obj a, .obj b => by
      rw [beqVal]; simp only [Val.obj.injEq]; exact beqObjList_iff a b
  | .undefined, b => by cases b <;> simp [beqVal]
  | .null, b => by cases b <;> simp [beqVal]
  | .bool x, b => by cases b <;> simp [beqVal]
  | .num x, b => by cases b <;> simp [beqVal]
  | .str x, b => by cases b <;> simp [beqVal]
  | .fn x, b => by cases b <;> simp [beqVal]
  | .mdx, b => by cases b <;> simp [beqVal]
  | .obj _, .undefined => by simp [beqVal]
  | .obj _, .null => by simp [beqVal]
  | .obj _, .bool _ => by simp [beqVal]
  | .obj _, .num _ => by simp [beqVal]
  | .obj _, .str _ => by simp [beqVal]
  | .obj _, .fn _ => by simp [beqVal]
  | .obj _, .mdx => by simp [beqVal]

theorem beqObjList_iff : ∀ a b, beqObjList a b = true ↔ a = b
  | [], [] => by simp [beqObjList]
  | (k1, v1) :: r1, (k2, v2) :: r2 => by
      rw [beqObjList]
      simp only [Bool.and_eq_true, beq_iff_eq]
      constructor
      · rintro ⟨⟨hk, hv⟩, hr⟩
        rw [hk, (beqVal_iff v1 v2).mp hv, (beqObjList_iff r1 r2).mp hr]
      · intro h
        injection h with h1 h2
        injection h1 with hk hv
        exact ⟨⟨hk, (beqVal_iff v1 v2).mpr hv⟩, (beqObjList_iff r1 r2).mpr h2⟩
  | _ :: _, [] => by simp [beqObjList]
  | [], _ :: _ => by simp [beqObjList]
end

instance : DecidableEq Val := fun a b =>
  decidable_of_iff (beqVal a b = true) (beqVal_iff a b)

/-- A plain JavaScript object: ordered own-entry list (keys unique in any
object a JavaScript program can build; lookups take the first match). -/
abbrev Obj := List (String × Val)

/-- Truthiness of a JavaScript value, as tested by `if`, `&&` and `||`. -/
def truthy : Val → Bool
  | .undefined => false
  | .null => false
  | .bool b => b
  | .num n => n != 0
  | .str s => s != ""
  | .fn _ => true
  | .mdx => true
  | .obj _ => true

/-- JavaScript `x || y`. -/
def jsOr (x y : Val) : Val := if truthy x then x else y

/-- JavaScript `x && y`. -/
def jsAnd (x y : Val) : Val := if truthy x then y else x

/-- JavaScript string coercion as performed by `"".concat(s, ".")` on the
`parentName` and `mdxType` props when building the scoped lookup key. -/
def jsToString : Val → String
  | .undefined => "undefined"
  | .null => "null"
  | .bool b => if b then "true" else "false"
  | .num n => toString n
  | .str s => s
  | .fn _ => "function"
  | .mdx => "function"
  | .obj _ => "[object Object]"

/-- Source helper `o(e,n,t)`: the assignment `e[n] = t` on a plain object.
When the key is already present its entry is overwritten in place; otherwise
the entry is appended (JavaScript own-property insertion order). -/
def setProp : Obj → String → Val → Obj
  | [], n, t => [(n, t)]
  | (k0, v0) :: rest, n, t =>
      if k0 == n then (k0, t) :: rest else (k0, v0) :: setProp rest n t

/-- The copy loop of source helper `i` for one source object: every own entry
of `src` is assigned onto `tgt` in order via `o`. -/
def assignEntries (tgt : Obj) (src : Obj) : Obj :=
  src.foldl (fun acc kv => setProp acc kv.1 kv.2) tgt

/-- Source helper `i(e, ...sources)` (object spread): each source object is
copied onto the target in argument order, later sources overwriting earlier
entries on key collision. -/
def objectSpread (e : Obj) (sources : List Obj) : Obj :=
  sources.foldl assignEntries e

/-- First entry of `e` with key `k`, if any (the semantics of a JavaScript
own-property read; objects built by this module carry each key once). -/
def objLookup : Obj → String → Option Val
  | [], _ => none
  | (k0, v0) :: rest, k => if k0 == k then some v0 else objLookup rest k

/-- JavaScript property read `e[k]` on a plain object: `undefined` if absent. -/
def getProp (e : Obj) (k : String) : Val :=
  (objLookup e k).getD .undefined

/-- Property read through a general value; only plain objects carry own
entries in this universe. -/
def getPropV : Val → String → Val
  | .obj o, k => getProp o k
  | _, _ => .undefined

/-- Keys of an object, in entry order. -/
def objKeys (e : Obj) : List String := e.map Prod.fst

/-- Source helper `l(e, excluded)` (`objectWithoutProperties`): a new object
holding every own entry of `e` whose key is not listed, in order. -/
def objWithout (e : Obj) (excluded : List String) : Obj :=
  e.filter (fun kv => !(excluded.contains kv.1))

/-- Own enumerable entries of a value, as enumerated by
`for (var s in n) hasOwnProperty.call(n, s)`: plain objects yield their
entries, `null` and `undefined` (and other primitives here) yield none. -/
def ownEntries : Val → Obj
  | .obj o => o
  | _ => []

/-- The `typeof e == "string"` test. -/
def isString : Val → Bool
  | .str _ => true
  | _ => false

/-- Source `p(e)`: under ambient context `ctx` (the value of the module's
React context, default an empty object), a falsy `e` returns the context
itself; a truthy object `e` is merged over a copy of the context with
`i(i({}, ctx), e)`. A truthy non-object primitive spreads no own entries, so
the result is a plain copy of the context. (The function-typed `components`
case of the source is outside this value universe; no claim uses it.) -/
def useMDXComponents (ctx : Obj) (e : Val) : Obj :=
  if truthy e then
    match e with
    | .obj o => assignEntries (assignEntries [] ctx) o
    | _ => assignEntries [] ctx
  else ctx

/-- Opaque reference for the `wrapper` function component of source table `d`
(it renders its children inside a Fragment). -/
def wrapperId : Nat := 0

/-- Source table `d`: the built-in default shortcodes. `inlineCode` renders as
the host-native `code` tag; `wrapper` is a function component. -/
def d : Obj := [("inlineCode", Val.str "code"), ("wrapper", Val.fn wrapperId)]

/-- Renderer choice inside source `u` (`MDXCreateElement`): with
`u = p(components)`, the source computes
`m = u["".concat(parentName, ".").concat(mdxType)] || u[mdxType] || d[mdxType] || originalType`. -/
def resolveRenderer (ctx : Obj) (components mdxType originalType parentName : Val) : Val :=
  jsOr (getProp (useMDXComponents ctx components)
        (jsToString parentName ++ "." ++ jsToString mdxType))
    (jsOr (getProp (useMDXComponents ctx components) (jsToString mdxType))
      (jsOr (getProp d (jsToString mdxType)) originalType))

/-- The props keys destructured away from the incoming props in source `u`:
`l(e, ["components", "mdxType", "originalType", "parentName"])`. -/
def reservedKeys : List String := ["components", "mdxType", "originalType", "parentName"]

/-- Result of `r.createElement(type, props, ...children)`: an element
description for the host renderer. -/
structure Element : Type where
  typ : Val
  props : Val
  children : List Val
deriving DecidableEq

/-- Props object forwarded to the resolved renderer by source `u`: with
`c = l(e, reserved)` and `t = e.components`, the source builds
`i(i({ref: n}, c), {}, {components: t})` when `t` is truthy and
`i({ref: n}, c)` otherwise. -/
def mdxProps (e : Obj) (ref : Val) : Obj :=
  if truthy (getProp e "components") then
    objectSpread (objectSpread [("ref", ref)] [objWithout e reservedKeys])
      [[], [("components", getProp e "components")]]
  else
    objectSpread [("ref", ref)] [objWithout e reservedKeys]

/-- Source `u` (`MDXCreateElement`, a `forwardRef` render function of props
`e` and ref `n`): destructures `components`, `mdxType`, `originalType` and
`parentName`, resolves the renderer `m` and calls `createElement` with the
merged props. -/
def MDXCreateElement (ctx : Obj) (e : Obj) (ref : Val) : Element :=
  Element.mk
    (resolveRenderer ctx (getProp e "components") (getProp e "mdxType")
      (getProp e "originalType") (getProp e "parentName"))
    (Val.obj (mdxProps e ref)) []

/-- Source export `kt` (function `f`): the element factory. With
`o = n && n.mdxType`, when the tag `e` is a string or `o` is truthy it
synthesizes an `MDXCreateElement` element whose props are a copy of `n` with
`originalType = e` and `mdxType` set (`e` itself when a string, else `o`);
otherwise it calls `createElement(e, n, ...)` directly. The extra positional
arguments are forwarded as children in call order in both branches. -/
def kt (e : Val) (n : Val) (rest : List Val) : Element :=
  if isString e || truthy (jsAnd n (getPropV n "mdxType")) then
    Element.mk Val.mdx
      (Val.obj (setProp
        (setProp (assignEntries [] (ownEntries n)) "originalType" e)
        "mdxType" (if isString e then e else jsAnd n (getPropV n "mdxType"))))
      rest
  else Element.mk e n rest

/-- Rendering one synthesized `MDXCreateElement` element under an ambient
context: the host invokes the forwardRef render function on the element's
props and a ref. -/
def renderMDX (ctx : Obj) (el : Element) (ref : Val) : Element :=
  MDXCreateElement ctx (ownEntries el.props) ref

/-!
Heap model for the mutation claims. JavaScript objects are heap references;
source helper `i` writes only into its first argument, which in
`p(e)` is the freshly allocated literal of `i(i({}, ctx), e)`. The heap is a
list of address-object pairs with a bump allocator.
-/

/-- Association of addresses to objects, first match. -/
def lookupAddr : List (Nat × Obj) → Nat → Option Obj
  | [], _ => none
  | (a0, o0) :: rest, a => if a0 == a then some o0 else lookupAddr rest a

/-- Replacement of the entry list of the object at address `a` by the result
of `setProp` (source helper `o` acting on a heap object). -/
def setPropAt : List (Nat × Obj) → Nat → String → Val → List (Nat × Obj)
  | [], _, _, _ => []
  | (a0, o0) :: rest, a, k, v =>
      if a0 == a then (a0, setProp o0 k v) :: rest
      else (a0, o0) :: setPropAt rest a k v

/-- A heap of plain objects with a bump allocator. -/
structure Store : Type where
  objs : List (Nat × Obj)
  next : Nat

/-- Every allocated address is below the allocation counter. -/
def wfStore (σ : Store) : Prop := ∀ p ∈ σ.objs, p.1 < σ.next

instance (σ : Store) : Decidable (wfStore σ) :=
  List.decidableBAll _ _

/-- Heap read of the object at address `a`. -/
def storeGet (σ : Store) (a : Nat) : Option Obj :=
  lookupAddr σ.objs a

/-- Allocation of a fresh empty object literal, returning its address. -/
def alloc (σ : Store) : Nat × Store :=
  (σ.next, ⟨σ.objs ++ [(σ.next, [])], σ.next + 1⟩)

/-- Heap-level property assignment `tgt[k] = v` (source helper `o`). -/
def storeSetProp (σ : Store) (a : Nat) (k : String) (v : Val) : Store :=
  ⟨setPropAt σ.objs a k v, σ.next⟩

/-- One source-argument pass of the copy loop of source helper `i`: the own
entries of the object at `src` are read once and assigned onto the object at
`tgt` in order. -/
def spreadInto (σ : Store) (tgt src : Nat) : Store :=
  ((storeGet σ src).getD []).foldl (fun σ1 kv => storeSetProp σ1 tgt kv.1 kv.2) σ

/-- Heap-level `extend` (the truthy-object branch of source `p`):
`i(i({}, n), e)` allocates a fresh object, spreads the context object at `nA`
into it, then the overrides object at `eA`, and returns the fresh address. -/
def extendStore (σ : Store) (nA eA : Nat) : Nat × Store :=
  let t := alloc σ
  (t.1, spreadInto (spreadInto t.2 t.1 nA) t.1 eA)

example : truthy (Val.obj []) = true := by decide

example :
    resolveRenderer [("code", Val.fn 5)] Val.undefined (Val.str "code")
      (Val.str "code") Val.undefined = Val.fn 5 := by decide

example :
    resolveRenderer [] Val.undefined (Val.str "inlineCode") (Val.str "inlineCode")
      Val.undefined = Val.str "code" := by decide

example :
    objectSpread (objectSpread [] [[("a", Val.num 1), ("b", Val.num 2)]])
      [[("b", Val.num 3), ("c", Val.num 4)]]
    = [("a", Val.num 1), ("b", Val.num 3), ("c", Val.num 4)] := by decide

/-- Left-biased choice on options, the specification-side combinator for
"first source that has the key wins". -/
def optOr {α : Type} : Option α → Option α → Option α
  | some v, _ => some v
  | none, y => y

theorem optOr_right_none {α : Type} (x : Option α) : optOr x none = x := by
  cases x <;> rfl

theorem jsOr_of_truthy {x : Val} (y : Val) (h : truthy x = true) : jsOr x y = x := by
  simp [jsOr, h]

theorem jsOr_of_falsy {x : Val} (y : Val) (h : truthy x = false) : jsOr x y = y := by
  simp [jsOr, h]

theorem truthy_jsOr (x y : Val) : truthy (jsOr x y) = (truthy x || truthy y) := by
  cases hx : truthy x <;> simp [jsOr, hx]

theorem getProp_eq_of_lookup {e : Obj} {k : String} {v : Val}
    (h : objLookup e k = some v) : getProp e k = v := by
  simp [getProp, h]

theorem jsToString_str (s : String) : jsToString (Val.str s) = s := rfl

theorem objLookup_eq_none_of_not_mem {e : Obj} {k : String}
    (h : k ∉ objKeys e) : objLookup e k = none := by
  induction e with
  | nil => rfl
  | cons kv rest ih =>
      obtain ⟨k0, v0⟩ := kv
      simp only [objKeys, List.map_cons, List.mem_cons, not_or] at h
      have hne : k0 ≠ k := fun he => h.1 he.symm
      simp only [objLookup, beq_iff_eq, hne, if_false]
      exact ih (by simpa [objKeys] using h.2)

theorem objLookup_setProp_self (e : Obj) (k : String) (v : Val) :
    objLookup (setProp e k v) k = some v := by
  induction e with
  | nil => simp [setProp, objLookup]
  | cons kv rest ih =>
      obtain ⟨k0, v0⟩ := kv
      by_cases h : k0 = k <;> simp [setProp, objLookup, h, ih]

theorem objLookup_setProp_ne (e : Obj) (k n : String) (v : Val) (h : n ≠ k) :
    objLookup (setProp e n v) k = objLookup e k := by
  induction e with
  | nil => simp [setProp, objLookup, h]
  | cons kv rest ih =>
      obtain ⟨k0, v0⟩ := kv
      by_cases h0 : k0 = n
      · subst h0; simp [setProp, objLookup, h]
      · by_cases hk : k0 = k <;> simp [setProp, objLookup, h0, hk, Ne.symm h, ih]

theorem objLookup_assignEntries (src : Obj) (tgt : Obj) (k : String)
    (h : (objKeys src).Nodup) :
    objLookup (assignEntries tgt src) k = optOr (objLookup src k) (objLookup tgt k) := by
  induction src generalizing tgt with
  | nil => simp [assignEntries, objLookup, optOr]
  | cons kv rest ih =>
      obtain ⟨k0, v0⟩ := kv
      simp only [objKeys, List.map_cons, List.nodup_cons] at h
      have hstep : assignEntries tgt ((k0, v0) :: rest) = assignEntries (setProp tgt k0 v0) rest := rfl
      rw [hstep, ih _ h.2]
      by_cases hk : k0 = k
      · subst hk
        rw [objLookup_eq_none_of_not_mem (by simpa [objKeys] using h.1)]
        simp [objLookup, objLookup_setProp_self, optOr]
      · rw [objLookup_setProp_ne _ _ _ _ hk]
        simp [objLookup, hk]

theorem objLookup_objWithout_of_not_excluded (e : Obj) (excl : List String)
    (k : String) (h : k ∉ excl) :
    objLookup (objWithout e excl) k = objLookup e k := by
  induction e with
  | nil => rfl
  | cons kv rest ih =>
      obtain ⟨k0, v0⟩ := kv
      by_cases h0 : k0 ∈ excl
      · have hne : k0 ≠ k := fun he => h (he ▸ h0)
        rw [show objWithout ((k0, v0) :: rest) excl = objWithout rest excl by
              simp [objWithout, List.filter_cons, h0]]
        rw [ih]
        simp [objLookup, hne]
      · rw [show objWithout ((k0, v0) :: rest) excl = (k0, v0) :: objWithout rest excl by
              simp [objWithout, List.filter_cons, h0]]
        by_cases hk : k0 = k
        · simp [objLookup, hk]
        · simp only [objLookup, beq_iff_eq, hk, if_false]
          exact ih

theorem objLookup_objWithout_of_excluded (e : Obj) (excl : List String)
    (k : String) (h : k ∈ excl) :
    objLookup (objWithout e excl) k = none := by
  induction e with
  | nil => rfl
  | cons kv rest ih =>
      obtain ⟨k0, v0⟩ := kv
      by_cases h0 : k0 ∈ excl
      · rw [show objWithout ((k0, v0) :: rest) excl = objWithout rest excl by
              simp [objWithout, List.filter_cons, h0]]
        exact ih
      · have hne : k0 ≠ k := fun he => h0 (he ▸ h)
        rw [show objWithout ((k0, v0) :: rest) excl = (k0, v0) :: objWithout rest excl by
              simp [objWithout, List.filter_cons, h0]]
        simp only [objLookup, beq_iff_eq, hne, if_false]
        exact ih

theorem objWithout_keys_nodup (e : Obj) (excl : List String)
    (h : (objKeys e).Nodup) : (objKeys (objWithout e excl)).Nodup := by
  apply List.Nodup.sublist _ h
  exact List.Sublist.map _ (List.filter_sublist _)

theorem lookupAddr_setPropAt_ne (l : List (Nat × Obj)) (a a' : Nat) (k : String)
    (v : Val) (h : a' ≠ a) :
    lookupAddr (setPropAt l a k v) a' = lookupAddr l a' := by
  induction l with
  | nil => rfl
  | cons p rest ih =>
      obtain ⟨a0, o0⟩ := p
      by_cases h0 : a0 = a
      · subst h0
        have : a0 ≠ a' := fun he => h he.symm
        simp [setPropAt, lookupAddr, this]
      · by_cases ha : a0 = a' <;> simp [setPropAt, lookupAddr, h0, ha, h, ih]

theorem storeGet_foldlSet_ne (entries : Obj) (σ : Store) (t a : Nat) (h : a ≠ t) :
    storeGet (entries.foldl (fun σ1 kv => storeSetProp σ1 t kv.1 kv.2) σ) a
      = storeGet σ a := by
  induction entries generalizing σ with
  | nil => rfl
  | cons kv rest ih =>
      rw [List.foldl_cons, ih]
      exact lookupAddr_setPropAt_ne _ _ _ _ _ h

theorem storeGet_spreadInto_ne (σ : Store) (t s a : Nat) (h : a ≠ t) :
    storeGet (spreadInto σ t s) a = storeGet σ a :=
  storeGet_foldlSet_ne _ _ _ _ h

theorem lookupAddr_append_single_ne (l : List (Nat × Obj)) (n a : Nat) (o : Obj)
    (h : a ≠ n) : lookupAddr (l ++ [(n, o)]) a = lookupAddr l a := by
  induction l with
  | nil =>
      have : n ≠ a := fun he => h he.symm
      simp [lookupAddr, this]
  | cons p rest ih =>
      obtain ⟨a0, o0⟩ := p
      by_cases h0 : a0 = a <;> simp [lookupAddr, h0, ih]

theorem storeGet_alloc_ne (σ : Store) (a : Nat) (h : a ≠ σ.next) :
    storeGet (alloc σ).2 a = storeGet σ a :=
  lookupAddr_append_single_ne _ _ _ _ h

theorem lookupAddr_eq_none (l : List (Nat × Obj)) (a : Nat)
    (h : ∀ p ∈ l, p.1 ≠ a) : lookupAddr l a = none := by
  induction l with
  | nil => rfl
  | cons p rest ih =>
      obtain ⟨a0, o0⟩ := p
      have h0 : a0 ≠ a := h (a0, o0) (List.mem_cons_self _ _)
      simp [lookupAddr, h0]
      exact ih fun q hq => h q (List.mem_cons_of_mem _ hq)

theorem storeGet_next_none (σ : Store) (h : wfStore σ) :
    storeGet σ σ.next = none :=
  lookupAddr_eq_none _ _ fun p hp => Nat.ne_of_lt (h p hp)

/-- C1, counterexample to the claim as stated: with context entry
`"pre.code"`, tag `"code"`, parent `"pre"` and an explicit `components`
override assigning `Val.fn 2` to `"code"`, resolution returns the scoped
context entry `Val.fn 1`, not the override — so the override does not win
regardless of the context's contents. -/
theorem c1_counterexample :
    resolveRenderer [("pre.code", Val.fn 1)] (Val.obj [("code", Val.fn 2)])
      (Val.str "code") (Val.str "code") (Val.str "pre") ≠ Val.fn 2 := by
  decide

/-- C1 (amended): override dominance holds provided the merged components
mapping has no truthy entry under the scoped dotted key
`parentName.mdxType`. For every context `ctx` and explicit `components`
override assigning a truthy renderer `R'` to the tag, resolution picks `R'`. -/
theorem c1_override_dominance (ctx comps : Obj) (tag : String)
    (R' originalType parentName : Val)
    (hnodup : (objKeys comps).Nodup)
    (hR : objLookup comps tag = some R')
    (htruthy : truthy R' = true)
    (hscoped : truthy (getProp (useMDXComponents ctx (Val.obj comps))
        (jsToString parentName ++ "." ++ tag)) = false) :
    resolveRenderer ctx (Val.obj comps) (Val.str tag) originalType parentName = R' := by
  unfold resolveRenderer
  simp only [jsToString_str]
  rw [jsOr_of_falsy _ hscoped]
  have hu : objLookup (useMDXComponents ctx (Val.obj comps)) tag = some R' := by
    show objLookup (assignEntries (assignEntries [] ctx) comps) tag = some R'
    rw [objLookup_assignEntries _ _ _ hnodup, hR]
    rfl
  rw [getProp_eq_of_lookup hu, jsOr_of_truthy _ htruthy]

/-- C1 witness: the amended dominance theorem applied at a concrete input. -/
theorem c1_witness :
    objLookup [("code", Val.fn 2)] "code" = some (Val.fn 2)
    ∧ resolveRenderer [("code", Val.fn 9)] (Val.obj [("code", Val.fn 2)])
        (Val.str "code") (Val.str "code") Val.undefined = Val.fn 2 :=
  ⟨by decide,
    c1_override_dominance [("code", Val.fn 9)] [("code", Val.fn 2)] "code"
      (Val.fn 2) (Val.str "code") Val.undefined (by decide) (by decide) (by decide)
      (by decide)⟩

/-- C2, counterexample to the claim as stated: the empty context has no entry
for the tag `"inlineCode"` and no override is given, yet resolution returns
the built-in shortcode `"code"`, not the pass-through fallback
`"inlineCode"` — so the fallback does not apply to all tags without
exception. -/
theorem c2_counterexample :
    resolveRenderer [] Val.undefined (Val.str "inlineCode") (Val.str "inlineCode")
      Val.undefined ≠ Val.str "inlineCode" := by
  decide

/-- C2 (amended): pass-through fallback holds for every tag with no truthy
context entry, no truthy scoped entry under `parentName.tag`, no override,
and no built-in default shortcode entry (`inlineCode` and `wrapper` are the
exceptions): resolution returns the `originalType` prop, the tag itself. -/
theorem c2_passthrough (ctx : Obj) (tag : String) (originalType parentName : Val)
    (hscoped : truthy (getProp ctx (jsToString parentName ++ "." ++ tag)) = false)
    (hplain : truthy (getProp ctx tag) = false)
    (hdefault : truthy (getProp d tag) = false) :
    resolveRenderer ctx Val.undefined (Val.str tag) originalType parentName = originalType := by
  unfold resolveRenderer
  simp only [jsToString_str]
  rw [show useMDXComponents ctx Val.undefined = ctx from rfl]
  rw [jsOr_of_falsy _ hscoped, jsOr_of_falsy _ hplain, jsOr_of_falsy _ hdefault]

/-- C2 witness: the amended pass-through theorem applied at a concrete
input. -/
theorem c2_witness :
    resolveRenderer [("a", Val.fn 1)] Val.undefined (Val.str "em") (Val.str "em")
      Val.undefined = Val.str "em" :=
  c2_passthrough [("a", Val.fn 1)] "em" (Val.str "em") Val.undefined (by decide)
    (by decide) (by decide)

/-- C3, counterexample to the claim as stated: the context maps `"code"` to
`Val.fn 1`, no override is supplied, yet with parent `"pre"` the scoped
context entry `"pre.code"` is returned instead of `Val.fn 1`. -/
theorem c3_counterexample :
    resolveRenderer [("code", Val.fn 1), ("pre.code", Val.fn 2)] Val.undefined
      (Val.str "code") (Val.str "code") (Val.str "pre") ≠ Val.fn 1 := by
  decide

/-- C3 (amended): context hit holds provided the context has no truthy entry
under the scoped dotted key `parentName.tag`: if the context maps the tag to
a truthy renderer `R` and no override is supplied, resolution returns `R`. -/
theorem c3_context_hit (ctx : Obj) (tag : String) (R originalType parentName : Val)
    (hR : objLookup ctx tag = some R)
    (htruthy : truthy R = true)
    (hscoped : truthy (getProp ctx (jsToString parentName ++ "." ++ tag)) = false) :
    resolveRenderer ctx Val.undefined (Val.str tag) originalType parentName = R := by
  unfold resolveRenderer
  simp only [jsToString_str]
  rw [show useMDXComponents ctx Val.undefined = ctx from rfl]
  rw [jsOr_of_falsy _ hscoped, getProp_eq_of_lookup hR, jsOr_of_truthy _ htruthy]

/-- C3 witness: the amended context-hit theorem applied at a concrete input. -/
theorem c3_witness :
    objLookup [("code", Val.fn 7)] "code" = some (Val.fn 7)
    ∧ resolveRenderer [("code", Val.fn 7)] Val.undefined (Val.str "code")
        (Val.str "code") Val.undefined = Val.fn 7 :=
  ⟨by decide,
    c3_context_hit [("code", Val.fn 7)] "code" (Val.fn 7) (Val.str "code")
      Val.undefined (by decide) (by decide) (by decide)⟩

/-- C4: resolution is total. For every context, every (possibly absent)
`components` override, every `mdxType` and `parentName`, as long as the
`originalType` prop is a renderable value (truthy — the factory always sets
it to the tag), the resolver yields a truthy renderer: absence of a mapping
is not an error, the chain ends in the pass-through `originalType`. -/
theorem c4_resolution_total (ctx : Obj)
    (components mdxType originalType parentName : Val)
    (h : truthy originalType = true) :
    truthy (resolveRenderer ctx components mdxType originalType parentName) = true := by
  unfold resolveRenderer
  simp [truthy_jsOr, h]

/-- C4 witness: totality applied at a concrete input with an empty context. -/
theorem c4_witness :
    truthy (Val.str "p") = true
    ∧ truthy (resolveRenderer [] Val.undefined (Val.str "p") (Val.str "p")
        Val.undefined) = true :=
  ⟨by decide,
    c4_resolution_total [] Val.undefined (Val.str "p") (Val.str "p") Val.undefined
      (by decide)⟩

/-- C5: `extend` (the truthy-object branch of source `p`, heap level) does not
mutate the original context object: for every well-formed heap, every
allocated context address `nA` and every overrides address `eA`, the object
stored at `nA` is unchanged after the extension, and the returned mapping
lives at a previously unallocated address. -/
theorem c5_extend_nonmutating (σ : Store) (nA eA : Nat)
    (hwf : wfStore σ) (hn : nA < σ.next) :
    storeGet (extendStore σ nA eA).2 nA = storeGet σ nA
    ∧ storeGet σ (extendStore σ nA eA).1 = none := by
  have h1 : nA ≠ σ.next := Nat.ne_of_lt hn
  constructor
  · show storeGet (spreadInto (spreadInto (alloc σ).2 σ.next nA) σ.next eA) nA
      = storeGet σ nA
    rw [storeGet_spreadInto_ne _ _ _ _ h1, storeGet_spreadInto_ne _ _ _ _ h1,
      storeGet_alloc_ne _ _ h1]
  · exact storeGet_next_none σ hwf

/-- C5 witness: non-mutation applied on a one-object heap holding the context
at address 0. -/
theorem c5_witness :
    wfStore ⟨[(0, [("code", Val.fn 1)])], 1⟩
    ∧ (0 : Nat) < 1
    ∧ storeGet (extendStore ⟨[(0, [("code", Val.fn 1)])], 1⟩ 0 0).2 0
        = storeGet ⟨[(0, [("code", Val.fn 1)])], 1⟩ 0
    ∧ storeGet ⟨[(0, [("code", Val.fn 1)])], 1⟩
        (extendStore ⟨[(0, [("code", Val.fn 1)])], 1⟩ 0 0).1 = none :=
  ⟨by decide, by decide,
    (c5_extend_nonmutating ⟨[(0, [("code", Val.fn 1)])], 1⟩ 0 0 (by decide)
      (by decide)).1,
    (c5_extend_nonmutating ⟨[(0, [("code", Val.fn 1)])], 1⟩ 0 0 (by decide)
      (by decide)).2⟩

/-- C6: the shallow merge of source helper `i` (as used by `p` for `extend`
and by the props assembly) is right-biased: for all base `c` and override `o`
with unique keys, every key of `o` resolves to `o`'s value and every other
key to `c`'s value; in particular merging `a:1, b:2` with `b:3, c:4` yields
`a:1, b:3, c:4`. -/
theorem c6_merge_right_biased :
    (∀ (c o : Obj) (k : String), (objKeys c).Nodup → (objKeys o).Nodup →
      objLookup (objectSpread (objectSpread [] [c]) [o]) k
        = optOr (objLookup o k) (objLookup c k))
    ∧ objectSpread (objectSpread [] [[("a", Val.num 1), ("b", Val.num 2)]])
        [[("b", Val.num 3), ("c", Val.num 4)]]
      = [("a", Val.num 1), ("b", Val.num 3), ("c", Val.num 4)] := by
  constructor
  · intro c o k hc ho
    show objLookup (assignEntries (assignEntries [] c) o) k = _
    rw [objLookup_assignEntries _ _ _ ho, objLookup_assignEntries _ _ _ hc]
    rw [show objLookup ([] : Obj) k = none from rfl, optOr_right_none]
  · decide

/-- C6 witness: the right-bias law applied at a concrete collision. -/
theorem c6_witness :
    objLookup (objectSpread (objectSpread [] [[("x", Val.num 7)]])
      [[("x", Val.num 9)]]) "x"
      = optOr (objLookup [("x", Val.num 9)] "x") (objLookup [("x", Val.num 7)] "x") :=
  c6_merge_right_biased.1 [("x", Val.num 7)] [("x", Val.num 9)] "x" (by decide)
    (by decide)

/-- C7: the element factory `kt` forwards its extra positional arguments as
the element's children in call order, in both its branches (synthesized
`MDXCreateElement` and direct `createElement`). -/
theorem c7_children_forwarding (e n : Val) (rest : List Val) :
    (kt e n rest).children = rest := by
  unfold kt
  split <;> rfl

/-- C8: end-to-end scenario. Under the context mapping `"code"` to a renderer,
the factory invoked with tag `"code"`, props `inline: true` and no override
produces (after the `MDXCreateElement` pass) an element whose renderer is the
context's renderer for `"code"` and whose props contain `inline: true`. -/
theorem c8_end_to_end (rX : Nat) (ref : Val) :
    (renderMDX [("code", Val.fn rX)]
      (kt (Val.str "code") (Val.obj [("inline", Val.bool true)]) []) ref).typ
      = Val.fn rX
    ∧ getPropV (renderMDX [("code", Val.fn rX)]
        (kt (Val.str "code") (Val.obj [("inline", Val.bool true)]) []) ref).props
        "inline"
      = Val.bool true :=
  ⟨rfl, rfl⟩

/-- C9: scoped lookup precedence. If the merged components mapping (context
with the explicit override spread over it) has an entry under the dotted key
`parent.tag` whose value is truthy, resolution returns that entry — whatever
plain entries for the tag the context or the override carry. -/
theorem c9_scoped_precedence (ctx comps : Obj) (tag parent : String)
    (R originalType : Val)
    (hscoped : objLookup (useMDXComponents ctx (Val.obj comps))
      (parent ++ "." ++ tag) = some R)
    (htruthy : truthy R = true) :
    resolveRenderer ctx (Val.obj comps) (Val.str tag) originalType
      (Val.str parent) = R := by
  unfold resolveRenderer
  simp only [jsToString_str]
  rw [getProp_eq_of_lookup hscoped, jsOr_of_truthy _ htruthy]

/-- C9 witness: scoped precedence at a concrete input where both the context
and the override also carry plain entries for the tag. -/
theorem c9_witness :
    objLookup (useMDXComponents [("pre.code", Val.fn 3), ("code", Val.fn 4)]
        (Val.obj [("code", Val.fn 5)])) ("pre" ++ "." ++ "code") = some (Val.fn 3)
    ∧ resolveRenderer [("pre.code", Val.fn 3), ("code", Val.fn 4)]
        (Val.obj [("code", Val.fn 5)]) (Val.str "code") (Val.str "code")
        (Val.str "pre")
      = Val.fn 3 :=
  ⟨by decide,
    c9_scoped_precedence [("pre.code", Val.fn 3), ("code", Val.fn 4)]
      [("code", Val.fn 5)] "code" "pre" (Val.fn 3) (Val.str "code") (by decide)
      (by decide)⟩

/-- C10: reserved-prop stripping. For every incoming props object (unique
keys) and every ref, the props object forwarded to the chosen renderer has no
entry for `mdxType`, `originalType` or `parentName`; it has an entry for
`components` exactly when the incoming `components` value is truthy (and then
with that value); and every other incoming entry is forwarded unchanged. -/
theorem c10_reserved_props (e : Obj) (ref : Val) (hnodup : (objKeys e).Nodup) :
    objLookup (mdxProps e ref) "mdxType" = none
    ∧ objLookup (mdxProps e ref) "originalType" = none
    ∧ objLookup (mdxProps e ref) "parentName" = none
    ∧ objLookup (mdxProps e ref) "components"
        = (if truthy (getProp e "components") then some (getProp e "components")
           else none)
    ∧ ∀ k v, k ∉ reservedKeys → objLookup e k = some v →
        objLookup (mdxProps e ref) k = some v := by
  have hc : (objKeys (objWithout e reservedKeys)).Nodup :=
    objWithout_keys_nodup e reservedKeys hnodup
  by_cases ht : truthy (getProp e "components") = true
  · have hm : ∀ k, objLookup (mdxProps e ref) k
        = optOr (objLookup [("components", getProp e "components")] k)
            (optOr (objLookup (objWithout e reservedKeys) k)
              (objLookup [("ref", ref)] k)) := by
      intro k
      unfold mdxProps
      rw [if_pos ht]
      show objLookup (assignEntries
        (assignEntries [("ref", ref)] (objWithout e reservedKeys))
        [("components", getProp e "components")]) k = _
      rw [objLookup_assignEntries [("components", getProp e "components")] _ _
          (by simp [objKeys]),
        objLookup_assignEntries (objWithout e reservedKeys) _ _ hc]
    refine ⟨?_, ?_, ?_, ?_, ?_⟩
    · rw [hm, objLookup_objWithout_of_excluded e reservedKeys "mdxType" (by decide)]
      rfl
    · rw [hm, objLookup_objWithout_of_excluded e reservedKeys "originalType" (by decide)]
      rfl
    · rw [hm, objLookup_objWithout_of_excluded e reservedKeys "parentName" (by decide)]
      rfl
    · rw [hm, if_pos ht]
      rfl
    · intro k v hk hv
      have hkc : ("components" : String) ≠ k := by
        intro he
        exact hk (he ▸ (by decide : ("components" : String) ∈ reservedKeys))
      rw [hm]
      rw [show objLookup [("components", getProp e "components")] k = none by
            simp [objLookup, hkc]]
      rw [objLookup_objWithout_of_not_excluded e reservedKeys k hk, hv]
      rfl
  · have hm : ∀ k, objLookup (mdxProps e ref) k
        = optOr (objLookup (objWithout e reservedKeys) k)
            (objLookup [("ref", ref)] k) := by
      intro k
      unfold mdxProps
      rw [if_neg ht]
      show objLookup (assignEntries [("ref", ref)] (objWithout e reservedKeys)) k = _
      rw [objLookup_assignEntries _ _ _ hc]
    refine ⟨?_, ?_, ?_, ?_, ?_⟩
    · rw [hm, objLookup_objWithout_of_excluded e reservedKeys "mdxType" (by decide)]
      rfl
    · rw [hm, objLookup_objWithout_of_excluded e reservedKeys "originalType" (by decide)]
      rfl
    · rw [hm, objLookup_objWithout_of_excluded e reservedKeys "parentName" (by decide)]
      rfl
    · rw [hm, if_neg ht,
        objLookup_objWithout_of_excluded e reservedKeys "components" (by decide)]
      rfl
    · intro k v hk hv
      rw [hm, objLookup_objWithout_of_not_excluded e reservedKeys k hk, hv]
      rfl

/-- C10 witness: stripping and forwarding applied on a concrete props object
carrying a reserved key and an ordinary key. -/
theorem c10_witness :
    (objKeys [("mdxType", Val.str "code"), ("inline", Val.bool true)]).Nodup
    ∧ objLookup (mdxProps [("mdxType", Val.str "code"), ("inline", Val.bool true)]
        Val.null) "mdxType" = none
    ∧ objLookup (mdxProps [("mdxType", Val.str "code"), ("inline", Val.bool true)]
        Val.null) "inline" = some (Val.bool true) :=
  ⟨by decide,
    (c10_reserved_props [("mdxType", Val.str "code"), ("inline", Val.bool true)]
      Val.null (by decide)).1,
    (c10_reserved_props [("mdxType", Val.str "code"), ("inline", Val.bool true)]
      Val.null (by decide)).2.2.2.2 "inline" (Val.bool true) (by decide)
      (by decide)⟩

end MDX
